import Mathlib

/-!
Verification of the RAG PDF pipeline (src/main.py, src/streamlit_app.py).

The development embeds the id-generation and upsert logic of the ingest
function, the query function, and the Streamlit polling client, and proves
the documented invariants about them. Python stdlib uuid.uuid5 is embedded
faithfully (RFC 4122: SHA-1 of namespace bytes plus the UTF-8 name, with
version and variant bits forced). Helper modules of the repository that are
not present under src (data_loader.py, vector_db.py, custom_types.py) are
modelled from the spec where needed; each such definition is marked.
-/

/-! ## SHA-1 (embedding of the hash underlying Python uuid.uuid5) -/

/-- Reduce a natural number to a 32-bit word. -/
def w32 (n : Nat) : Nat := n % 4294967296

/-- Rotate a 32-bit word left by s bits. -/
def rotl (s w : Nat) : Nat := w32 ((w <<< s) ||| (w >>> (32 - s)))

/-- SHA-1 round constant for round t. -/
def sha1K (t : Nat) : Nat :=
  if t < 20 then 0x5A827999
  else if t < 40 then 0x6ED9EBA1
  else if t < 60 then 0x8F1BBCDC
  else 0xCA62C1D6

/-- SHA-1 round mixing function for round t. -/
def sha1F (t b c d : Nat) : Nat :=
  if t < 20 then (b &&& c) ||| ((b ^^^ 0xFFFFFFFF) &&& d)
  else if t < 40 then b ^^^ c ^^^ d
  else if t < 60 then (b &&& c) ||| (b &&& d) ||| (c &&& d)
  else b ^^^ c ^^^ d

/-- Group a byte list into big-endian 32-bit words, four bytes per word. -/
def bytesToWords : List Nat → List Nat
  | b0 :: b1 :: b2 :: b3 :: rest =>
      (b0 * 16777216 + b1 * 65536 + b2 * 256 + b3) :: bytesToWords rest
  | _ => []

/-- Extend the 16 message words to 80, one recursion step per new word. -/
def extendWords : Nat → List Nat → List Nat
  | 0, ws => ws
  | n + 1, ws =>
      let len := ws.length
      let w := rotl 1 ((ws.getD (len - 3) 0) ^^^ (ws.getD (len - 8) 0) ^^^
                       (ws.getD (len - 14) 0) ^^^ (ws.getD (len - 16) 0))
      extendWords n (ws ++ [w])

/-- One SHA-1 round on the five-word working state. -/
def sha1Round (st : Nat × Nat × Nat × Nat × Nat) (tw : Nat × Nat) :
    Nat × Nat × Nat × Nat × Nat :=
  let (a, b, c, d, e) := st
  let (t, wt) := tw
  let temp := w32 (rotl 5 a + sha1F t b c d + e + sha1K t + wt)
  (temp, a, rotl 30 b, c, d)

/-- Compress one 64-byte block into the running five-word digest state. -/
def sha1Compress (h : List Nat) (block : List Nat) : List Nat :=
  let ws := extendWords 64 (bytesToWords block)
  let h0 := h.getD 0 0
  let h1 := h.getD 1 0
  let h2 := h.getD 2 0
  let h3 := h.getD 3 0
  let h4 := h.getD 4 0
  let fin := ((List.range 80).zip ws).foldl sha1Round (h0, h1, h2, h3, h4)
  let (a, b, c, d, e) := fin
  [w32 (h0 + a), w32 (h1 + b), w32 (h2 + c), w32 (h3 + d), w32 (h4 + e)]

/-- Big-endian byte expansion of a natural number into exactly k bytes. -/
def natToBytesBE : Nat → Nat → List Nat
  | 0, _ => []
  | k + 1, n => natToBytesBE k (n / 256) ++ [n % 256]

/-- SHA-1 padding: append 0x80, zero bytes to 56 mod 64, then the 64-bit
big-endian bit length. -/
def sha1Pad (msg : List Nat) : List Nat :=
  let len := msg.length
  let zeros := (119 - len % 64) % 64
  msg ++ [128] ++ List.replicate zeros 0 ++ natToBytesBE 8 (len * 8)

/-- Fold the compression function over the 64-byte blocks of a padded
message; the fuel argument bounds the recursion by the message length. -/
def processBlocks : Nat → List Nat → List Nat → List Nat
  | _, [], h => h
  | 0, _, h => h
  | fuel + 1, msg, h => processBlocks fuel (msg.drop 64) (sha1Compress h (msg.take 64))

/-- SHA-1 digest of a byte list, as a list of 20 bytes. -/
def sha1 (msg : List Nat) : List Nat :=
  let padded := sha1Pad msg
  let h := processBlocks padded.length padded
    [0x67452301, 0xEFCDAB89, 0x98BADCFE, 0x10325476, 0xC3D2E1F0]
  h.foldr (fun w acc => natToBytesBE 4 w ++ acc) []

/-! ## UTF-8 and decimal rendering (Python str encoding and str(i)) -/

/-- UTF-8 encoding of one character, as bytes. -/
def utf8EncodeChar (c : Char) : List Nat :=
  let n := c.toNat
  if n < 128 then [n]
  else if n < 2048 then [192 + n / 64, 128 + n % 64]
  else if n < 65536 then [224 + n / 4096, 128 + (n / 64) % 64, 128 + n % 64]
  else [240 + n / 262144, 128 + (n / 4096) % 64, 128 + (n / 64) % 64, 128 + n % 64]

/-- UTF-8 encoding of a string, as bytes. -/
def utf8Encode (s : String) : List Nat :=
  s.data.foldr (fun c acc => utf8EncodeChar c ++ acc) []

/-- The decimal digit characters. -/
def digitChar (d : Nat) : Char :=
  match d with
  | 0 => '0' | 1 => '1' | 2 => '2' | 3 => '3' | 4 => '4'
  | 5 => '5' | 6 => '6' | 7 => '7' | 8 => '8' | 9 => '9'
  | _ => '*'

/-- Accumulator loop producing the decimal digits of n, most significant
first; the fuel argument bounds the recursion. -/
def natToDecCore : Nat → Nat → List Char → List Char
  | 0, _, acc => acc
  | fuel + 1, n, acc =>
      if n < 10 then digitChar n :: acc
      else natToDecCore fuel (n / 10) (digitChar (n % 10) :: acc)

/-- Decimal rendering of a natural number, matching Python str(i). -/
def natToDec (n : Nat) : String := String.mk (natToDecCore (n + 1) n [])

/-! ## UUID version 5 (embedding of Python uuid.uuid5) -/

/-- The bytes of uuid.NAMESPACE_URL, 6ba7b811-9dad-11d1-80b4-00c04fd430c8. -/
def namespaceURL : List Nat :=
  [0x6b, 0xa7, 0xb8, 0x11, 0x9d, 0xad, 0x11, 0xd1,
   0x80, 0xb4, 0x00, 0xc0, 0x4f, 0xd4, 0x30, 0xc8]

/-- Force the UUID version nibble to 5 and the variant bits to 10, as
uuid.UUID does on the truncated digest. -/
def setVersionVariant (bs : List Nat) : List Nat :=
  bs.take 6 ++ [((bs.getD 6 0) &&& 15) ||| 80] ++ [bs.getD 7 0] ++
    [((bs.getD 8 0) &&& 63) ||| 128] ++ bs.drop 9

/-- The 16 bytes of the version-5 UUID of a name under a namespace. -/
def uuid5Bytes (ns : List Nat) (name : String) : List Nat :=
  setVersionVariant ((sha1 (ns ++ utf8Encode name)).take 16)

/-- One lowercase hex digit. -/
def hexDigit (n : Nat) : Char :=
  if n < 10 then digitChar n
  else match n with
    | 10 => 'a' | 11 => 'b' | 12 => 'c' | 13 => 'd' | 14 => 'e' | _ => 'f'

/-- Two lowercase hex digits of a byte. -/
def byteToHex (b : Nat) : List Char := [hexDigit (b / 16), hexDigit (b % 16)]

/-- Hex rendering of a byte list. -/
def bytesToHex (bs : List Nat) : List Char :=
  bs.foldr (fun b acc => byteToHex b ++ acc) []

/-- The canonical 8-4-4-4-12 string form of a 16-byte UUID. -/
def uuidFormat (bs : List Nat) : String :=
  String.mk (bytesToHex (bs.take 4)) ++ "-" ++
  String.mk (bytesToHex ((bs.drop 4).take 2)) ++ "-" ++
  String.mk (bytesToHex ((bs.drop 6).take 2)) ++ "-" ++
  String.mk (bytesToHex ((bs.drop 8).take 2)) ++ "-" ++
  String.mk (bytesToHex (bs.drop 10))

/-- Python str(uuid.uuid5(ns, name)): SHA-1 the namespace bytes and the
UTF-8 name, truncate to 16 bytes, force version and variant, format. -/
def uuid5 (ns : List Nat) (name : String) : String :=
  uuidFormat (uuid5Bytes ns name)

/-! ## Data model (custom_types.py, modelled from the spec, and the
vector store, modelled from the spec since vector_db.py is not in src) -/

/-- Modelled from the spec: custom_types.RAGChunkAndSrc, the result of the
load-and-chunk step: an ordered list of text chunks tied to a source id. -/
structure RAGChunkAndSrc where
  chunks : List String
  source_id : String

/-- Modelled from the spec: custom_types.RAGUpsertResult, the ingest count. -/
structure RAGUpsertResult where
  ingested : Nat

/-- Modelled from the spec: custom_types.RAGSearchResult, matched text
contexts and their source identifiers. -/
structure RAGSearchResult where
  contexts : List String
  sources : List String

/-- An embedding vector; the numeric content is irrelevant to the claims. -/
def Vec := List Int

/-- A stored payload, as built by the upsert step: source and text. -/
structure Payload where
  source : String
  text : String

/-- Modelled from the spec: a vector record (id, vector, payload). -/
structure StoreRecord where
  vector : Vec
  payload : Payload

/-- Modelled from the spec: the vector store, keyed by string id. -/
def Store := String → Option StoreRecord

/-- Modelled from the spec: insert-or-overwrite of one record keyed by id. -/
def storePut (s : Store) (id : String) (r : StoreRecord) : Store :=
  fun k => if k = id then some r else s k

/-- Modelled from the spec: QdrantStorage.upsert(ids, vectors, payloads),
insert-or-overwrite of a batch of records keyed by deterministic id. -/
def storeUpsert (s : Store) (entries : List (String × StoreRecord)) : Store :=
  entries.foldl (fun acc e => storePut acc e.1 e.2) s

/-- Modelled from the spec: data_loader.embed_texts converts text chunks
into vectors 1:1, one vector per chunk, via a pointwise embedder. -/
def embedTexts (embed : String → Vec) (texts : List String) : List Vec :=
  texts.map embed

/-! ## Ingest function (src/main.py, rag_ingest_pdf and its _upsert step) -/

/-- The f-string of main.py line 58, the source id and the index joined
by a colon. -/
def chunkName (source_id : String) (i : Nat) : String :=
  source_id ++ ":" ++ natToDec i

/-- The ids list of _upsert: str(uuid.uuid5(uuid.NAMESPACE_URL,
"{source_id}:{i}")) for i in range(len(chunks)). -/
def upsertIds (x : RAGChunkAndSrc) : List String :=
  (List.range x.chunks.length).map (fun i => uuid5 namespaceURL (chunkName x.source_id i))

/-- The payloads list of _upsert: {"source": source_id, "text": chunks[i]}
for i in range(len(chunks)). -/
def upsertPayloads (x : RAGChunkAndSrc) : List Payload :=
  (List.range x.chunks.length).map (fun i => ⟨x.source_id, x.chunks.getD i ""⟩)

/-- The (id, vector, payload) records passed to QdrantStorage.upsert,
records zipped 1:1 from the three parallel lists. -/
def upsertRecords (embed : String → Vec) (x : RAGChunkAndSrc) : List (String × StoreRecord) :=
  (upsertIds x).zip (((embedTexts embed x.chunks).zip (upsertPayloads x)).map
    (fun p => StoreRecord.mk p.1 p.2))

/-- The _upsert step of rag_ingest_pdf: embed the chunks, build ids and
payloads, upsert to the store, return the ingest count. -/
def runUpsert (embed : String → Vec) (x : RAGChunkAndSrc) (s : Store) :
    Store × RAGUpsertResult :=
  (storeUpsert s (upsertRecords embed x), ⟨x.chunks.length⟩)

/-- rag_ingest_pdf after the load-and-chunk step: runs _upsert and returns
its result as the run output. -/
def ragIngestPdf (embed : String → Vec) (loaded : RAGChunkAndSrc) (s : Store) :
    Store × RAGUpsertResult :=
  runUpsert embed loaded s

/-! ## Query function (src/main.py, rag_query_pdf_ai) -/

/-- A JSON-shaped value, enough to state the shape of the run outputs. -/
inductive JVal where
  | str (s : String)
  | nat (n : Nat)
  | strList (l : List String)
  | obj (fields : List (String × JVal))

/-- The store operations the two workflow functions can perform; search
carries the query vector and top_k, upsert carries the batch of records. -/
inductive StoreOp where
  | upsertOp (entries : List (String × StoreRecord))
  | searchOp (v : Vec) (top_k : Nat)

/-- Modelled from the spec: the effect of one store operation on the store.
Upsert inserts-or-overwrites by id; search(vector, top_k) only returns
contexts and sources and performs no write. -/
def applyStoreOp (s : Store) : StoreOp → Store
  | .upsertOp entries => storeUpsert s entries
  | .searchOp _ _ => s

/-- Whether an operation writes to the store. -/
def StoreOp.isWrite : StoreOp → Bool
  | .upsertOp _ => true
  | .searchOp _ _ => false

/-- The _search step of rag_query_pdf_ai: embed the question, search the
store with top_k, wrap the found contexts and sources. The searcher is the
spec-level QdrantStorage.search, kept abstract as a parameter. -/
def ragSearch (search : Vec → Nat → RAGSearchResult) (embed : String → Vec)
    (question : String) (top_k : Nat) : RAGSearchResult :=
  let query_vec := (embedTexts embed [question]).getD 0 []
  let found := search query_vec top_k
  ⟨found.contexts, found.sources⟩

/-- The prompt of rag_query_pdf_ai: the contexts joined as bullet lines,
then the question, with the fixed instruction text around them. -/
def userContent (found : RAGSearchResult) (question : String) : String :=
  let context_block := String.intercalate "\n\n" (found.contexts.map (fun c => "- " ++ c))
  "Use the following context to answer the question.\n\n" ++
  "Context:\n" ++ context_block ++ "\n\n" ++
  "Question: " ++ question ++ "\n" ++
  "Answer concisely using the context above."

/-- rag_query_pdf_ai: embed-and-search, build the prompt, ask the LLM, and
return the dict with keys answer, sources, num_contexts. The LLM is the
external chat completion, kept abstract as a parameter from prompt to the
message content; the code strips the content. -/
def ragQueryPdfAi (search : Vec → Nat → RAGSearchResult) (llm : String → String)
    (embed : String → Vec) (question : String) (top_k : Nat) :
    List (String × JVal) :=
  let found := ragSearch search embed question top_k
  let answer := (llm (userContent found question)).trim
  [("answer", .str answer),
   ("sources", .strList found.sources),
   ("num_contexts", .nat found.contexts.length)]

/-- The store operations issued by one run of rag_query_pdf_ai: the single
embed-and-search step; no upsert and no delete appear in the function. -/
def queryStoreOps (embed : String → Vec) (question : String) (top_k : Nat) :
    List StoreOp :=
  [.searchOp ((embedTexts embed [question]).getD 0 []) top_k]

/-- The store operations issued by one run of rag_ingest_pdf: the single
batch upsert of the embed-and-upsert step. -/
def ingestStoreOps (embed : String → Vec) (x : RAGChunkAndSrc) : List StoreOp :=
  [.upsertOp (upsertRecords embed x)]

/-! ## Polling client (src/streamlit_app.py, get_run_output) -/

/-- One run object from the status endpoint: run.get("status", "Unknown")
and run.get("output", default empty object). -/
structure RunInfo where
  status : Option String
  output : Option JVal

/-- What one polling request can come back as: a requests-level exception,
any other exception, or an HTTP response with a status code and the parsed
data list of runs. -/
inductive PollResponse where
  | netError (msg : String)
  | otherError (msg : String)
  | httpResp (code : Nat) (runs : List RunInfo)

/-- The statuses the client treats as successful completion. -/
def successStatuses : List String := ["Completed", "Succeeded", "Finished"]

/-- The statuses the client treats as failed completion. -/
def failureStatuses : List String := ["Failed", "Cancelled"]

/-- What one iteration of the polling loop decides for a status string:
return success, return failure, or keep polling. -/
inductive PollDecision where
  | isSuccess
  | isFailure
  | keepGoing
deriving DecidableEq

/-- The status checks of get_run_output, in the order the code runs them. -/
def classifyStatus (st : String) : PollDecision :=
  if st ∈ successStatuses then .isSuccess
  else if st ∈ failureStatuses then .isFailure
  else .keepGoing

/-- The dict returned by get_run_output: the success flag and, depending on
it, the output object or the error string. -/
structure RunOutputResult where
  success : Bool
  output : Option JVal
  error : Option String

/-- The result returned when the while loop exits by timeout. -/
def timeoutResult : RunOutputResult :=
  ⟨false, none, some "Timeout waiting for result"⟩

/-- The error returned when the event key is unset. -/
def keyNotSetMsg : String :=
  "INNGEST_EVENT_KEY not set. Check Inngest Dashboard manually."

/-- The polling loop of get_run_output over an oracle listing, for each
iteration, the elapsed wall-clock time and the response of that single
request. Returns the result dict, the number of requests issued, and the
progress values displayed. An exhausted oracle stands for the while
condition failing, the timeout path. -/
def pollLoop (timeout : ℚ) : List (ℚ × PollResponse) → RunOutputResult × Nat × List ℚ
  | [] => (timeoutResult, 0, [])
  | (elapsed, resp) :: rest =>
    if elapsed < timeout then
      match resp with
      | .netError msg =>
          (⟨false, none, some ("Network error: " ++ msg)⟩, 1, [])
      | .otherError msg =>
          (⟨false, none, some ("Error: " ++ msg)⟩, 1, [])
      | .httpResp code runs =>
        if code = 200 then
          match runs with
          | [] =>
              let (r, n, ps) := pollLoop timeout rest
              (r, n + 1, ps)
          | run :: _ =>
              let status := run.status.getD "Unknown"
              let progress := min (elapsed / timeout) 1
              match classifyStatus status with
              | .isSuccess =>
                  (⟨true, some (run.output.getD (.obj [])), none⟩, 1, [progress])
              | .isFailure =>
                  (⟨false, none, some ("Run " ++ status.toLower)⟩, 1, [progress])
              | .keepGoing =>
                  let (r, n, ps) := pollLoop timeout rest
                  (r, n + 1, progress :: ps)
        else
          let (r, n, ps) := pollLoop timeout rest
          (r, n + 1, ps)
    else (timeoutResult, 0, [])

/-- get_run_output: the early return when INNGEST_EVENT_KEY is empty, else
the polling loop. -/
def getRunOutput (eventKey : String) (timeout : ℚ)
    (oracle : List (ℚ × PollResponse)) : RunOutputResult × Nat × List ℚ :=
  if eventKey = "" then (⟨false, none, some keyNotSetMsg⟩, 0, [])
  else pollLoop timeout oracle

/-! ## Predicates and helpers used by the statements and proofs -/

/-- A response on which the loop body neither returns nor raises: a
non-200 response, an empty runs list, or a first run whose status is
neither a success status nor a failure status. -/
def continuesPolling : PollResponse → Bool
  | .netError _ => false
  | .otherError _ => false
  | .httpResp code runs =>
    if code = 200 then
      match runs with
      | [] => true
      | run :: _ =>
        match classifyStatus (run.status.getD "Unknown") with
        | .keepGoing => true
        | _ => false
    else true

/-- A 200 response whose first run carries a non-terminal status: the shape
on which the loop both displays progress and keeps polling. -/
def nonTerminalRuns : PollResponse → Bool
  | .httpResp code (run :: _) =>
    decide (code = 200) &&
      (match classifyStatus (run.status.getD "Unknown") with
       | .keepGoing => true
       | _ => false)
  | _ => false

/-- Decimal reading of a digit string, the inverse used to show that
natToDec is injective. -/
def decDecode (l : List Char) : Nat :=
  l.foldl (fun a c => 10 * a + (c.toNat - 48)) 0

/-- The id bytes of chunk i of a source, packed as a tuple of bounded
bytes; the finite codomain of this map drives the pigeonhole argument. -/
def uuidCode (src : String) (i : Nat) : Fin 16 → Fin 256 :=
  fun k => ⟨(uuid5Bytes namespaceURL (chunkName src i)).getD k 0 % 256,
            Nat.mod_lt _ (by norm_num)⟩

/-- The latest record a batch assigns to a key, if any; characterizes the
effect of a batch upsert on one key. -/
def lastVal (es : List (String × StoreRecord)) (k : String) : Option StoreRecord :=
  es.foldl (fun acc e => if e.1 = k then some e.2 else acc) none

/-! ## Theorems -/

/-- Chunk i of an ingestion gets the uuid5 of source_id:i; the element of
the ids list at position i is that uuid, for every position in range. -/
theorem upsertIds_getD (x : RAGChunkAndSrc) (i : Nat) (h : i < x.chunks.length) :
    (upsertIds x).getD i "" = uuid5 namespaceURL (chunkName x.source_id i) := by
  simp [upsertIds, List.getD_eq_getElem?_getD, List.getElem?_map, List.getElem?_range, h]

/-- C1: deterministic id generation. The vector id of chunk i equals the
UUIDv5 of the string source_id:i under the URL namespace, and two
ingestions sharing a source_id assign the same id to the same index. -/
theorem deterministic_id_generation (x y : RAGChunkAndSrc) (i : Nat)
    (hx : i < x.chunks.length) (hy : i < y.chunks.length)
    (hs : x.source_id = y.source_id) :
    (upsertIds x).getD i "" = uuid5 namespaceURL (x.source_id ++ ":" ++ natToDec i) ∧
    (upsertIds x).getD i "" = (upsertIds y).getD i "" := by
  constructor
  · exact upsertIds_getD x i hx
  · rw [upsertIds_getD x i hx, upsertIds_getD y i hy, chunkName, chunkName, hs]

/-- Witness for C1 at two concrete two- and three-chunk ingestions. -/
theorem deterministic_id_generation_witness :
    (1 < 2 ∧ 1 < 3) ∧
    ((upsertIds ⟨["a", "b"], "doc.pdf"⟩).getD 1 "" =
      uuid5 namespaceURL ("doc.pdf" ++ ":" ++ natToDec 1) ∧
     (upsertIds ⟨["a", "b"], "doc.pdf"⟩).getD 1 "" =
      (upsertIds ⟨["c", "d", "e"], "doc.pdf"⟩).getD 1 "") :=
  ⟨⟨by decide, by decide⟩,
   deterministic_id_generation ⟨["a", "b"], "doc.pdf"⟩ ⟨["c", "d", "e"], "doc.pdf"⟩ 1
     (by decide) (by decide) rfl⟩

/-- A batch fold from any accumulator is the fold from none, with the
accumulator as the fallback. -/
theorem lastVal_foldl (es : List (String × StoreRecord)) (k : String)
    (acc : Option StoreRecord) :
    es.foldl (fun a e => if e.1 = k then some e.2 else a) acc =
      (lastVal es k).elim acc some := by
  induction es generalizing acc with
  | nil => simp [lastVal]
  | cons e t ih =>
    simp only [lastVal, List.foldl_cons]
    rw [ih, ih]
    rcases hl : lastVal t k with _ | v
    · by_cases he : e.1 = k <;> simp [he]
    · simp

/-- The value a batch upsert leaves at key k: the latest batch record for
k when one exists, the prior store content otherwise. -/
theorem storeUpsert_apply (s : Store) (es : List (String × StoreRecord)) (k : String) :
    storeUpsert s es k = (lastVal es k).elim (s k) some := by
  induction es generalizing s with
  | nil => simp [storeUpsert, lastVal]
  | cons e t ih =>
    simp only [storeUpsert, List.foldl_cons] at *
    rw [ih]
    have hl : lastVal (e :: t) k =
        (lastVal t k).elim (if e.1 = k then some e.2 else none) some := by
      simp only [lastVal, List.foldl_cons]
      rw [lastVal_foldl t k]
      rfl
    rw [hl]
    rcases lastVal t k with _ | v
    · by_cases he : e.1 = k
      · subst he
        simp [storePut]
      · have he2 : ¬ k = e.1 := fun h => he h.symm
        simp [storePut, he, he2]
    · simp

/-- Upserting the same batch twice leaves the store exactly as one upsert
does: the second pass only overwrites records with themselves. -/
theorem storeUpsert_idem (s : Store) (es : List (String × StoreRecord)) :
    storeUpsert (storeUpsert s es) es = storeUpsert s es := by
  funext k
  rw [storeUpsert_apply, storeUpsert_apply]
  rcases lastVal es k with _ | v <;> simp

/-- C2: idempotent re-ingestion. Two runs of the embed-and-upsert step on
the same chunks and source_id produce the identical ids list, and running
the upsert a second time leaves the store exactly as the first run did,
overwriting rather than duplicating. -/
theorem idempotent_reingestion (x y : RAGChunkAndSrc) (embed : String → Vec) (s : Store)
    (hc : x.chunks = y.chunks) (hs : x.source_id = y.source_id) :
    upsertIds x = upsertIds y ∧
    storeUpsert (storeUpsert s (upsertRecords embed x)) (upsertRecords embed y) =
      storeUpsert s (upsertRecords embed x) := by
  obtain ⟨xc, xs⟩ := x
  obtain ⟨yc, ys⟩ := y
  simp only at hc hs
  subst hc
  subst hs
  exact ⟨rfl, storeUpsert_idem s _⟩

/-- Witness for C2 at a concrete one-chunk ingestion into an empty store. -/
theorem idempotent_reingestion_witness :
    (["a"] = ["a"] ∧ "doc.pdf" = "doc.pdf") ∧
    (upsertIds ⟨["a"], "doc.pdf"⟩ = upsertIds ⟨["a"], "doc.pdf"⟩ ∧
     storeUpsert (storeUpsert (fun _ => none)
         (upsertRecords (fun _ => []) ⟨["a"], "doc.pdf"⟩))
         (upsertRecords (fun _ => []) ⟨["a"], "doc.pdf"⟩) =
       storeUpsert (fun _ => none) (upsertRecords (fun _ => []) ⟨["a"], "doc.pdf"⟩)) :=
  ⟨⟨rfl, rfl⟩,
   idempotent_reingestion ⟨["a"], "doc.pdf"⟩ ⟨["a"], "doc.pdf"⟩ (fun _ => []) (fun _ => none)
     rfl rfl⟩

/-- Big-endian expansion always produces exactly k bytes. -/
theorem natToBytesBE_length (k n : Nat) : (natToBytesBE k n).length = k := by
  induction k generalizing n with
  | zero => rfl
  | succ k ih => simp [natToBytesBE, ih]

/-- Every byte of a big-endian expansion is below 256. -/
theorem natToBytesBE_mem_lt (k n b : Nat) (h : b ∈ natToBytesBE k n) : b < 256 := by
  induction k generalizing n with
  | zero => simp [natToBytesBE] at h
  | succ k ih =>
    simp only [natToBytesBE, List.mem_append, List.mem_singleton] at h
    rcases h with h | h
    · exact ih _ h
    · subst h
      exact Nat.mod_lt _ (by norm_num)

/-- Compression always yields a five-word state. -/
theorem sha1Compress_length (h block : List Nat) : (sha1Compress h block).length = 5 := by
  simp [sha1Compress]

/-- Folding compression over blocks preserves the five-word state shape. -/
theorem processBlocks_length (fuel : Nat) (msg h : List Nat) (hh : h.length = 5) :
    (processBlocks fuel msg h).length = 5 := by
  induction fuel generalizing msg h with
  | zero => cases msg <;> simpa [processBlocks]
  | succ fuel ih =>
    cases msg with
    | nil => simpa [processBlocks]
    | cons b rest => exact ih _ _ (sha1Compress_length _ _)

/-- A SHA-1 digest is always 20 bytes. -/
theorem sha1_length (msg : List Nat) : (sha1 msg).length = 20 := by
  have hfold : ∀ l : List Nat,
      (l.foldr (fun w acc => natToBytesBE 4 w ++ acc) []).length = 4 * l.length := by
    intro l
    induction l with
    | nil => rfl
    | cons w t ih => simp [ih, natToBytesBE_length]; ring
  have h5 := processBlocks_length (sha1Pad msg).length (sha1Pad msg)
    [0x67452301, 0xEFCDAB89, 0x98BADCFE, 0x10325476, 0xC3D2E1F0] (by rfl)
  simp only [sha1]
  rw [hfold, h5]

/-- Every byte of a SHA-1 digest is below 256. -/
theorem sha1_mem_lt (msg : List Nat) (b : Nat) (h : b ∈ sha1 msg) : b < 256 := by
  simp only [sha1] at h
  generalize processBlocks (sha1Pad msg).length (sha1Pad msg)
    [0x67452301, 0xEFCDAB89, 0x98BADCFE, 0x10325476, 0xC3D2E1F0] = l at h
  induction l with
  | nil => simp at h
  | cons w t ih =>
    simp only [List.foldr_cons, List.mem_append] at h
    rcases h with h | h
    · exact natToBytesBE_mem_lt _ _ _ h
    · exact ih h

/-- A version-5 UUID always has 16 bytes. -/
theorem uuid5Bytes_length (ns : List Nat) (name : String) :
    (uuid5Bytes ns name).length = 16 := by
  have h20 := sha1_length (ns ++ utf8Encode name)
  simp [uuid5Bytes, setVersionVariant, List.length_take, List.length_drop, h20]

/-- Setting the version nibble keeps the byte below 256. -/
theorem lor80_lt (x : Nat) (hx : x ≤ 15) : x ||| 80 < 256 := by
  interval_cases x <;> decide

/-- Setting the variant bits keeps the byte below 256. -/
theorem lor128_lt (x : Nat) (hx : x ≤ 63) : x ||| 128 < 256 := by
  interval_cases x <;> decide

/-- Every byte of a version-5 UUID is below 256. -/
theorem uuid5Bytes_mem_lt (ns : List Nat) (name : String) (b : Nat)
    (h : b ∈ uuid5Bytes ns name) : b < 256 := by
  have hsha : ∀ c ∈ (sha1 (ns ++ utf8Encode name)).take 16, c < 256 :=
    fun c hc => sha1_mem_lt _ c (List.take_subset _ _ hc)
  have h20 := sha1_length (ns ++ utf8Encode name)
  have hlen : ((sha1 (ns ++ utf8Encode name)).take 16).length = 16 := by
    simp [List.length_take, h20]
  simp only [uuid5Bytes, setVersionVariant, List.mem_append, List.mem_singleton] at h
  rcases h with ((((h | h) | h) | h) | h)
  · exact hsha _ (List.take_subset _ _ h)
  · subst h
    exact lor80_lt _ Nat.and_le_right
  · subst h
    refine hsha _ ?_
    rw [List.getD_eq_getElem _ _ (by omega)]
    exact List.getElem_mem _
  · subst h
    exact lor128_lt _ Nat.and_le_right
  · exact hsha _ (List.drop_subset _ _ h)

/-- Reading any position of the UUID bytes, in range or not, gives a value
below 256. -/
theorem uuid5Bytes_getD_lt (ns : List Nat) (name : String) (k : Nat) :
    (uuid5Bytes ns name).getD k 0 < 256 := by
  by_cases hk : k < (uuid5Bytes ns name).length
  · rw [List.getD_eq_getElem _ _ hk]
    exact uuid5Bytes_mem_lt ns name _ (List.getElem_mem _)
  · rw [List.getD_eq_default _ _ (by omega)]
    norm_num

/-- Equal packed byte codes force equal uuid strings: the 16 bounded bytes
determine the bytes list, and the string is its formatting. -/
theorem uuidCode_eq_ids_eq (src : String) (i j : Nat)
    (h : uuidCode src i = uuidCode src j) :
    uuid5 namespaceURL (chunkName src i) = uuid5 namespaceURL (chunkName src j) := by
  have hb : uuid5Bytes namespaceURL (chunkName src i) =
      uuid5Bytes namespaceURL (chunkName src j) := by
    apply List.ext_getElem
    · rw [uuid5Bytes_length, uuid5Bytes_length]
    · intro k hk1 hk2
      have hk16 : k < 16 := by rw [uuid5Bytes_length] at hk1; exact hk1
      have hfk := congrFun h ⟨k, hk16⟩
      simp only [uuidCode, Fin.mk.injEq] at hfk
      rw [Nat.mod_eq_of_lt (uuid5Bytes_getD_lt _ _ _),
          Nat.mod_eq_of_lt (uuid5Bytes_getD_lt _ _ _)] at hfk
      rw [← List.getD_eq_getElem _ 0 hk1, ← List.getD_eq_getElem _ 0 hk2]
      exact hfk
  simp [uuid5, hb]

/-- Digit characters decode back to their digit. -/
theorem digitChar_toNat (d : Nat) (h : d < 10) : (digitChar d).toNat - 48 = d := by
  interval_cases d <;> decide

/-- Decoding the rendered digits of n continues a fold that starts at n:
the decimal rendering loses no information. -/
theorem natToDecCore_decode (fuel : Nat) :
    ∀ (n : Nat) (acc : List Char), n < 10 ^ fuel →
    decDecode (natToDecCore fuel n acc) =
      acc.foldl (fun a c => 10 * a + (c.toNat - 48)) n := by
  induction fuel with
  | zero =>
    intro n acc h
    have hn : n = 0 := by simpa using h
    subst hn
    rfl
  | succ fuel ih =>
    intro n acc h
    simp only [natToDecCore]
    by_cases hn : n < 10
    · rw [if_pos hn]
      simp [decDecode, digitChar_toNat n hn]
    · rw [if_neg hn]
      have hdiv : n / 10 < 10 ^ fuel := by
        rw [pow_succ] at h
        omega
      rw [ih _ _ hdiv]
      simp only [List.foldl_cons, digitChar_toNat (n % 10) (Nat.mod_lt _ (by norm_num))]
      congr 1
      omega

/-- Decimal rendering is injective. -/
theorem natToDec_inj (m n : Nat) (h : natToDec m = natToDec n) : m = n := by
  have hm : m < 10 ^ (m + 1) :=
    lt_of_lt_of_le (Nat.lt_pow_self (by norm_num) m)
      (Nat.pow_le_pow_right (by norm_num) (Nat.le_succ m))
  have hn : n < 10 ^ (n + 1) :=
    lt_of_lt_of_le (Nat.lt_pow_self (by norm_num) n)
      (Nat.pow_le_pow_right (by norm_num) (Nat.le_succ n))
  have hdm := natToDecCore_decode (m + 1) m [] hm
  have hdn := natToDecCore_decode (n + 1) n [] hn
  simp only [List.foldl_nil] at hdm hdn
  have hc : natToDecCore (m + 1) m [] = natToDecCore (n + 1) n [] :=
    congrArg String.data h
  rw [← hdm, ← hdn, hc]

/-- For a fixed source, distinct indices give distinct hash input names. -/
theorem chunkName_inj (src : String) (i j : Nat)
    (h : chunkName src i = chunkName src j) : i = j := by
  apply natToDec_inj
  have hd := congrArg String.data h
  simp only [chunkName, String.data_append] at hd
  have hd2 := List.append_cancel_left hd
  have hmk : String.mk (natToDec i).data = String.mk (natToDec j).data := by rw [hd2]
  simpa using hmk

/-- C3 is false as stated: ids live in a fixed finite space while indices
are unbounded, so some two distinct indices of one source share an id, by
pigeonhole; no ingestion-length bound appears in the claim. -/
theorem collision_freedom_fails_unboundedly :
    ¬ (∀ (x : RAGChunkAndSrc) (i j : Nat), i < x.chunks.length → j < x.chunks.length →
        i ≠ j → (upsertIds x).getD i "" ≠ (upsertIds x).getD j "") := by
  intro H
  obtain ⟨i, j, hne, heq⟩ := Finite.exists_ne_map_eq_of_infinite (uuidCode "doc.pdf")
  have hid := uuidCode_eq_ids_eq "doc.pdf" i j heq
  have hlen : (RAGChunkAndSrc.mk (List.replicate (i + j + 1) "") "doc.pdf").chunks.length =
      i + j + 1 := by simp
  have hi : i < i + j + 1 := by omega
  have hj : j < i + j + 1 := by omega
  apply H ⟨List.replicate (i + j + 1) "", "doc.pdf"⟩ i j (by rw [hlen]; exact hi)
    (by rw [hlen]; exact hj) hne
  rw [upsertIds_getD _ i (by rw [hlen]; exact hi),
      upsertIds_getD _ j (by rw [hlen]; exact hj)]
  exact hid

/-- C3 amended: within one ingestion, distinct chunk indices always yield
distinct hash input names source_id:i, and each id is exactly the uuid5 of
its name; ids of distinct indices therefore differ unless uuid5 itself
collides on those distinct names. -/
theorem collision_free_per_source_names (x : RAGChunkAndSrc) (i j : Nat)
    (hi : i < x.chunks.length) (hj : j < x.chunks.length) (hne : i ≠ j) :
    chunkName x.source_id i ≠ chunkName x.source_id j ∧
    (upsertIds x).getD i "" = uuid5 namespaceURL (chunkName x.source_id i) ∧
    (upsertIds x).getD j "" = uuid5 namespaceURL (chunkName x.source_id j) :=
  ⟨fun h => hne (chunkName_inj _ _ _ h), upsertIds_getD x i hi, upsertIds_getD x j hj⟩

/-- Witness for the amended C3 at a concrete two-chunk ingestion. -/
theorem collision_free_per_source_names_witness :
    (0 < 2 ∧ 1 < 2 ∧ (0 : Nat) ≠ 1) ∧
    (chunkName "doc.pdf" 0 ≠ chunkName "doc.pdf" 1 ∧
     (upsertIds ⟨["a", "b"], "doc.pdf"⟩).getD 0 "" =
       uuid5 namespaceURL (chunkName "doc.pdf" 0) ∧
     (upsertIds ⟨["a", "b"], "doc.pdf"⟩).getD 1 "" =
       uuid5 namespaceURL (chunkName "doc.pdf" 1)) :=
  ⟨⟨by decide, by decide, by decide⟩,
   collision_free_per_source_names ⟨["a", "b"], "doc.pdf"⟩ 0 1
     (by decide) (by decide) (by decide)⟩

/-- C4: query result shape. The query output carries exactly the keys
answer, sources and num_contexts in that order, and num_contexts is the
length of the contexts list the search step returned. -/
theorem query_result_shape (search : Vec → Nat → RAGSearchResult)
    (llm : String → String) (embed : String → Vec) (question : String) (top_k : Nat) :
    (ragQueryPdfAi search llm embed question top_k).map Prod.fst =
      ["answer", "sources", "num_contexts"] ∧
    (ragQueryPdfAi search llm embed question top_k).lookup "num_contexts" =
      some (.nat (search ((embedTexts embed [question]).getD 0 []) top_k).contexts.length) := by
  constructor
  · rfl
  · simp [ragQueryPdfAi, ragSearch, List.lookup]

/-- Matching the boolean keep-going test forces the keep-going decision. -/
theorem pollDecision_keepGoing_of_boolMatch {d : PollDecision}
    (h : (match d with | PollDecision.keepGoing => true | _ => false) = true) :
    d = .keepGoing := by
  cases d <;> simp_all

/-- On an oracle of responses on which the loop never returns, the loop
ends in the timeout result. -/
theorem pollLoop_timeout_of_continues (timeout : ℚ) (oracle : List (ℚ × PollResponse))
    (h : ∀ e ∈ oracle, continuesPolling e.2 = true) :
    (pollLoop timeout oracle).1 = timeoutResult := by
  induction oracle with
  | nil => rfl
  | cons e rest ih =>
    obtain ⟨elapsed, resp⟩ := e
    have hhead : continuesPolling resp = true := h _ (List.mem_cons_self _ _)
    have htail : ∀ e ∈ rest, continuesPolling e.2 = true :=
      fun e he => h e (List.mem_cons_of_mem _ he)
    by_cases ht : elapsed < timeout
    · cases resp with
      | netError m => simp [continuesPolling] at hhead
      | otherError m => simp [continuesPolling] at hhead
      | httpResp code runs =>
        by_cases hc : code = 200
        · cases runs with
          | nil => simpa [pollLoop, ht, hc] using ih htail
          | cons run rest2 =>
            simp only [continuesPolling, hc, if_true] at hhead
            have hcl := pollDecision_keepGoing_of_boolMatch hhead
            simpa [pollLoop, ht, hc, hcl] using ih htail
        · simpa [pollLoop, ht, hc] using ih htail
    · simp [pollLoop, ht]

/-- C5: polling terminal-state mapping. Succeeded maps to success, Failed
and Cancelled map to failure, no status is in both lists, every status
outside both lists keeps polling, and an oracle of such statuses ends in
the timeout result. -/
theorem polling_terminal_state_mapping :
    classifyStatus "Succeeded" = .isSuccess ∧
    classifyStatus "Failed" = .isFailure ∧
    classifyStatus "Cancelled" = .isFailure ∧
    (∀ st, st ∈ successStatuses → st ∉ failureStatuses) ∧
    (∀ st, st ∉ successStatuses → st ∉ failureStatuses →
      classifyStatus st = .keepGoing) ∧
    (∀ (timeout : ℚ) (oracle : List (ℚ × PollResponse)),
      (∀ e ∈ oracle, continuesPolling e.2 = true) →
      (pollLoop timeout oracle).1 = timeoutResult) := by
  refine ⟨rfl, rfl, rfl, ?_, ?_, pollLoop_timeout_of_continues⟩
  · intro st hs hf
    simp [successStatuses] at hs
    rcases hs with h | h | h <;> subst h <;> simp [failureStatuses] at hf
  · intro st hs hf
    simp [classifyStatus, hs, hf]

/-- Witness for C5 at the concrete statuses and a one-element oracle. -/
theorem polling_terminal_state_mapping_witness :
    ("Completed" ∈ successStatuses ∧ "Completed" ∉ failureStatuses) ∧
    classifyStatus "Running" = .keepGoing ∧
    (pollLoop 10 [(0, .httpResp 200 [⟨some "Running", none⟩])]).1 = timeoutResult :=
  ⟨⟨by decide, polling_terminal_state_mapping.2.2.2.1 "Completed" (by decide)⟩,
   polling_terminal_state_mapping.2.2.2.2.1 "Running" (by decide) (by decide),
   polling_terminal_state_mapping.2.2.2.2.2 10 _ (by decide)⟩

/-- C6: read-only query. The store operations of one query run contain no
write, and folding them over any store returns that store unchanged. -/
theorem query_never_mutates_store (embed : String → Vec) (question : String)
    (top_k : Nat) (s : Store) :
    (∀ op ∈ queryStoreOps embed question top_k, op.isWrite = false) ∧
    (queryStoreOps embed question top_k).foldl applyStoreOp s = s := by
  constructor
  · intro op hop
    simp [queryStoreOps] at hop
    subst hop
    rfl
  · rfl

/-- Witness for C6 at a concrete query against the empty store. -/
theorem query_never_mutates_store_witness :
    (StoreOp.searchOp ((embedTexts (fun _ => []) ["q"]).getD 0 []) 5 ∈
      queryStoreOps (fun _ => []) "q" 5 ∧
     StoreOp.isWrite (.searchOp ((embedTexts (fun _ => []) ["q"]).getD 0 []) 5) = false) ∧
    (queryStoreOps (fun _ => []) "q" 5).foldl applyStoreOp (fun _ => none) =
      (fun _ => none) :=
  ⟨⟨List.mem_cons_self _ _,
    (query_never_mutates_store (fun _ => []) "q" 5 (fun _ => none)).1 _
      (List.mem_cons_self _ _)⟩,
   (query_never_mutates_store (fun _ => []) "q" 5 (fun _ => none)).2⟩

/-- C7: ingest result count. The returned ingested count is the number of
chunks the load step produced, which is also the number of records the
upsert step writes. -/
theorem ingest_result_count (embed : String → Vec) (loaded : RAGChunkAndSrc) (s : Store) :
    (ragIngestPdf embed loaded s).2.ingested = loaded.chunks.length ∧
    (upsertRecords embed loaded).length = loaded.chunks.length := by
  constructor
  · rfl
  · simp [upsertRecords, upsertIds, upsertPayloads, embedTexts]

/-- C8: polling error handling without retry. If every response before the
failing one keeps the loop going and the network request then raises, the
loop returns the generic network failure at once, having issued exactly
one request per earlier iteration plus the failing one and none after. -/
theorem polling_network_error_no_retry (timeout : ℚ)
    (pre post : List (ℚ × PollResponse)) (e : ℚ) (m : String)
    (hpre : ∀ p ∈ pre, p.1 < timeout ∧ continuesPolling p.2 = true)
    (he : e < timeout) :
    (pollLoop timeout (pre ++ (e, .netError m) :: post)).1 =
      ⟨false, none, some ("Network error: " ++ m)⟩ ∧
    (pollLoop timeout (pre ++ (e, .netError m) :: post)).2.1 = pre.length + 1 := by
  induction pre with
  | nil => simp [pollLoop, he]
  | cons p rest ih =>
    obtain ⟨elapsed, resp⟩ := p
    obtain ⟨ht, hcont⟩ := hpre _ (List.mem_cons_self _ _)
    have htail : ∀ p ∈ rest, p.1 < timeout ∧ continuesPolling p.2 = true :=
      fun p hp => hpre p (List.mem_cons_of_mem _ hp)
    have ih2 := ih htail
    rcases hrec : pollLoop timeout (rest ++ (e, .netError m) :: post) with ⟨r, n, ps⟩
    rw [hrec] at ih2
    simp only at ih2
    cases resp with
    | netError m2 => simp [continuesPolling] at hcont
    | otherError m2 => simp [continuesPolling] at hcont
    | httpResp code runs =>
      by_cases hc : code = 200
      · cases runs with
        | nil =>
          simp [pollLoop, ht, hc, hrec, ih2.1, ih2.2]
        | cons run rest2 =>
          simp only [continuesPolling, hc, if_true] at hcont
          have hcl := pollDecision_keepGoing_of_boolMatch hcont
          simp [pollLoop, ht, hc, hcl, hrec, ih2.1, ih2.2]
      · simp [pollLoop, ht, hc, hrec, ih2.1, ih2.2]

/-- Witness for C8: one non-200 poll, then a network error, then an unread
response. -/
theorem polling_network_error_no_retry_witness :
    ((∀ p ∈ ([((0 : ℚ), .httpResp 500 [])] : List (ℚ × PollResponse)),
        p.1 < (10 : ℚ) ∧ continuesPolling p.2 = true) ∧ (1 : ℚ) < 10) ∧
    ((pollLoop 10 ([((0 : ℚ), .httpResp 500 [])] ++
        ((1 : ℚ), .netError "boom") :: [((2 : ℚ), .httpResp 200 [])])).1 =
      ⟨false, none, some ("Network error: " ++ "boom")⟩ ∧
     (pollLoop 10 ([((0 : ℚ), .httpResp 500 [])] ++
        ((1 : ℚ), .netError "boom") :: [((2 : ℚ), .httpResp 200 [])])).2.1 =
      [((0 : ℚ), PollResponse.httpResp 500 [])].length + 1) :=
  ⟨⟨by decide, by decide⟩,
   polling_network_error_no_retry 10 [((0 : ℚ), .httpResp 500 [])]
     [((2 : ℚ), .httpResp 200 [])] 1 "boom" (by decide) (by decide)⟩

/-- Every progress value the loop displays is the elapsed over timeout
ratio capped at one, for the elapsed time of some oracle entry. -/
theorem pollLoop_progress_mem (timeout : ℚ) (oracle : List (ℚ × PollResponse)) :
    ∀ q ∈ (pollLoop timeout oracle).2.2, ∃ p ∈ oracle, q = min (p.1 / timeout) 1 := by
  induction oracle with
  | nil => intro q hq; simp [pollLoop] at hq
  | cons p rest ih =>
    obtain ⟨elapsed, resp⟩ := p
    intro q hq
    by_cases ht : elapsed < timeout
    · cases resp with
      | netError m => simp [pollLoop, ht] at hq
      | otherError m => simp [pollLoop, ht] at hq
      | httpResp code runs =>
        by_cases hc : code = 200
        · cases runs with
          | nil =>
            rcases hrec : pollLoop timeout rest with ⟨r, n, ps⟩
            have hstep : pollLoop timeout ((elapsed, PollResponse.httpResp code []) :: rest) =
                (r, n + 1, ps) := by
              simp [pollLoop, ht, hc, hrec]
            rw [hstep] at hq
            obtain ⟨p2, hp2, hq2⟩ := ih q (by rw [hrec]; exact hq)
            exact ⟨p2, List.mem_cons_of_mem _ hp2, hq2⟩
          | cons run rest2 =>
            rcases hrec : pollLoop timeout rest with ⟨r, n, ps⟩
            cases hcl : classifyStatus (run.status.getD "Unknown") with
            | isSuccess =>
              have hstep : pollLoop timeout
                  ((elapsed, PollResponse.httpResp code (run :: rest2)) :: rest) =
                  (⟨true, some (run.output.getD (.obj [])), none⟩, 1,
                   [min (elapsed / timeout) 1]) := by
                simp [pollLoop, ht, hc, hcl]
              rw [hstep] at hq
              simp at hq
              exact ⟨(elapsed, .httpResp code (run :: rest2)), List.mem_cons_self _ _, hq⟩
            | isFailure =>
              have hstep : pollLoop timeout
                  ((elapsed, PollResponse.httpResp code (run :: rest2)) :: rest) =
                  (⟨false, none, some ("Run " ++ (run.status.getD "Unknown").toLower)⟩, 1,
                   [min (elapsed / timeout) 1]) := by
                simp [pollLoop, ht, hc, hcl]
              rw [hstep] at hq
              simp at hq
              exact ⟨(elapsed, .httpResp code (run :: rest2)), List.mem_cons_self _ _, hq⟩
            | keepGoing =>
              have hstep : pollLoop timeout
                  ((elapsed, PollResponse.httpResp code (run :: rest2)) :: rest) =
                  (r, n + 1, min (elapsed / timeout) 1 :: ps) := by
                simp [pollLoop, ht, hc, hcl, hrec]
              rw [hstep] at hq
              simp only [List.mem_cons] at hq
              rcases hq with hq | hq
              · exact ⟨(elapsed, .httpResp code (run :: rest2)), List.mem_cons_self _ _, hq⟩
              · obtain ⟨p2, hp2, hq2⟩ := ih q (by rw [hrec]; exact hq)
                exact ⟨p2, List.mem_cons_of_mem _ hp2, hq2⟩
        · rcases hrec : pollLoop timeout rest with ⟨r, n, ps⟩
          have hstep : pollLoop timeout ((elapsed, PollResponse.httpResp code runs) :: rest) =
              (r, n + 1, ps) := by
            simp [pollLoop, ht, hc, hrec]
          rw [hstep] at hq
          obtain ⟨p2, hp2, hq2⟩ := ih q (by rw [hrec]; exact hq)
          exact ⟨p2, List.mem_cons_of_mem _ hp2, hq2⟩
    · simp [pollLoop, ht] at hq

/-- Two oracles with the same elapsed times whose responses all carry
non-terminal first runs produce identical progress sequences, whatever the
statuses are. -/
theorem pollLoop_progress_independent (timeout : ℚ)
    (o1 o2 : List (ℚ × PollResponse))
    (h : List.Forall₂ (fun a b => a.1 = b.1 ∧
      nonTerminalRuns a.2 = true ∧ nonTerminalRuns b.2 = true) o1 o2) :
    (pollLoop timeout o1).2.2 = (pollLoop timeout o2).2.2 := by
  induction h with
  | nil => rfl
  | cons hab htail ih =>
    rename_i a b l1 l2
    obtain ⟨e1, r1⟩ := a
    obtain ⟨e2, r2⟩ := b
    obtain ⟨he, h1, h2⟩ := hab
    simp only at he h1 h2
    subst he
    rcases hr1 : pollLoop timeout l1 with ⟨ra, na, pa⟩
    rcases hr2 : pollLoop timeout l2 with ⟨rb, nb, pb⟩
    have hps : pa = pb := by
      have hih := ih
      rw [hr1, hr2] at hih
      exact hih
    cases r1 with
    | netError m => simp [nonTerminalRuns] at h1
    | otherError m => simp [nonTerminalRuns] at h1
    | httpResp code runs =>
      cases runs with
      | nil => simp [nonTerminalRuns] at h1
      | cons run rest =>
        simp only [nonTerminalRuns, Bool.and_eq_true, decide_eq_true_eq] at h1
        have hcl : classifyStatus (run.status.getD "Unknown") = .keepGoing :=
          pollDecision_keepGoing_of_boolMatch h1.2
        cases r2 with
        | netError m => simp [nonTerminalRuns] at h2
        | otherError m => simp [nonTerminalRuns] at h2
        | httpResp code2 runs2 =>
          cases runs2 with
          | nil => simp [nonTerminalRuns] at h2
          | cons run2 rest2 =>
            simp only [nonTerminalRuns, Bool.and_eq_true, decide_eq_true_eq] at h2
            have hcl2 : classifyStatus (run2.status.getD "Unknown") = .keepGoing :=
              pollDecision_keepGoing_of_boolMatch h2.2
            by_cases ht : e1 < timeout
            · simp [pollLoop, ht, h1.1, h2.1, hcl, hcl2, hr1, hr2, hps]
            · simp [pollLoop, ht]

/-- C9: progress-bar independence from backend progress. Displayed
progress values are exactly the elapsed over timeout ratio capped at one,
and two oracles with equal elapsed times but arbitrary different
non-terminal statuses display identical progress sequences. -/
theorem progress_bar_elapsed_only (timeout : ℚ) (o1 o2 : List (ℚ × PollResponse))
    (h : List.Forall₂ (fun a b => a.1 = b.1 ∧
      nonTerminalRuns a.2 = true ∧ nonTerminalRuns b.2 = true) o1 o2) :
    (pollLoop timeout o1).2.2 = (pollLoop timeout o2).2.2 ∧
    ∀ q ∈ (pollLoop timeout o1).2.2, ∃ p ∈ o1, q = min (p.1 / timeout) 1 :=
  ⟨pollLoop_progress_independent timeout o1 o2 h, pollLoop_progress_mem timeout o1⟩

/-- Witness for C9: one Running poll against one Queued poll at the same
elapsed time. -/
theorem progress_bar_elapsed_only_witness :
    List.Forall₂ (fun (a b : ℚ × PollResponse) => a.1 = b.1 ∧
      nonTerminalRuns a.2 = true ∧ nonTerminalRuns b.2 = true)
      [((1 : ℚ), .httpResp 200 [⟨some "Running", none⟩])]
      [((1 : ℚ), .httpResp 200 [⟨some "Queued", none⟩])] ∧
    (pollLoop 10 [((1 : ℚ), .httpResp 200 [⟨some "Running", none⟩])]).2.2 =
      (pollLoop 10 [((1 : ℚ), .httpResp 200 [⟨some "Queued", none⟩])]).2.2 :=
  ⟨List.Forall₂.cons ⟨rfl, by decide, by decide⟩ List.Forall₂.nil,
   (progress_bar_elapsed_only 10 _ _
     (List.Forall₂.cons ⟨rfl, by decide, by decide⟩ List.Forall₂.nil)).1⟩

/-- Every loop result is success with an output present or failure with a
nonempty error string. -/
theorem pollLoop_result_shape (timeout : ℚ) (oracle : List (ℚ × PollResponse)) :
    ((pollLoop timeout oracle).1.success = true →
      ∃ out, (pollLoop timeout oracle).1.output = some out) ∧
    ((pollLoop timeout oracle).1.success = false →
      ∃ e, (pollLoop timeout oracle).1.error = some e ∧ 0 < e.length) := by
  induction oracle with
  | nil =>
    refine ⟨fun h => by simp [pollLoop, timeoutResult] at h, fun _ => ?_⟩
    exact ⟨_, rfl, by decide⟩
  | cons p rest ih =>
    obtain ⟨elapsed, resp⟩ := p
    by_cases ht : elapsed < timeout
    · cases resp with
      | netError m =>
        refine ⟨fun h => by simp [pollLoop, ht] at h, fun _ => ?_⟩
        refine ⟨"Network error: " ++ m, by simp [pollLoop, ht], ?_⟩
        rw [String.length_append]
        have hpos : 0 < ("Network error: ").length := by decide
        omega
      | otherError m =>
        refine ⟨fun h => by simp [pollLoop, ht] at h, fun _ => ?_⟩
        refine ⟨"Error: " ++ m, by simp [pollLoop, ht], ?_⟩
        rw [String.length_append]
        have hpos : 0 < ("Error: ").length := by decide
        omega
      | httpResp code runs =>
        by_cases hc : code = 200
        · cases runs with
          | nil =>
            rcases hrec : pollLoop timeout rest with ⟨r, n, ps⟩
            have hstep : pollLoop timeout ((elapsed, PollResponse.httpResp code []) :: rest) =
                (r, n + 1, ps) := by simp [pollLoop, ht, hc, hrec]
            rw [hstep]
            rw [hrec] at ih
            exact ih
          | cons run rest2 =>
            rcases hrec : pollLoop timeout rest with ⟨r, n, ps⟩
            cases hcl : classifyStatus (run.status.getD "Unknown") with
            | isSuccess =>
              have hstep : pollLoop timeout
                  ((elapsed, PollResponse.httpResp code (run :: rest2)) :: rest) =
                  (⟨true, some (run.output.getD (.obj [])), none⟩, 1,
                   [min (elapsed / timeout) 1]) := by
                simp [pollLoop, ht, hc, hcl]
              rw [hstep]
              exact ⟨fun _ => ⟨_, rfl⟩, fun h => by simp at h⟩
            | isFailure =>
              have hstep : pollLoop timeout
                  ((elapsed, PollResponse.httpResp code (run :: rest2)) :: rest) =
                  (⟨false, none, some ("Run " ++ (run.status.getD "Unknown").toLower)⟩, 1,
                   [min (elapsed / timeout) 1]) := by
                simp [pollLoop, ht, hc, hcl]
              rw [hstep]
              refine ⟨fun h => by simp at h, fun _ =>
                ⟨"Run " ++ (run.status.getD "Unknown").toLower, rfl, ?_⟩⟩
              rw [String.length_append]
              have hpos : 0 < ("Run ").length := by decide
              omega
            | keepGoing =>
              have hstep : pollLoop timeout
                  ((elapsed, PollResponse.httpResp code (run :: rest2)) :: rest) =
                  (r, n + 1, min (elapsed / timeout) 1 :: ps) := by
                simp [pollLoop, ht, hc, hcl, hrec]
              rw [hstep]
              rw [hrec] at ih
              exact ih
        · rcases hrec : pollLoop timeout rest with ⟨r, n, ps⟩
          have hstep : pollLoop timeout ((elapsed, PollResponse.httpResp code runs) :: rest) =
              (r, n + 1, ps) := by simp [pollLoop, ht, hc, hrec]
          rw [hstep]
          rw [hrec] at ih
          exact ih
    · refine ⟨fun h => by simp [pollLoop, ht, timeoutResult] at h, fun _ => ?_⟩
      exact ⟨"Timeout waiting for result", by simp [pollLoop, ht, timeoutResult], by decide⟩

/-- C10: polling result shape. Every result of get_run_output has a
boolean success flag, carries an output when successful and a nonempty
error string when not, and an unset event key returns the failure at once
with zero requests issued. -/
theorem polling_result_dict_shape (key : String) (timeout : ℚ)
    (oracle : List (ℚ × PollResponse)) :
    ((getRunOutput key timeout oracle).1.success = true →
      ∃ out, (getRunOutput key timeout oracle).1.output = some out) ∧
    ((getRunOutput key timeout oracle).1.success = false →
      ∃ e, (getRunOutput key timeout oracle).1.error = some e ∧ 0 < e.length) ∧
    (key = "" →
      getRunOutput key timeout oracle = (⟨false, none, some keyNotSetMsg⟩, 0, [])) := by
  by_cases hk : key = ""
  · refine ⟨fun h => ?_, fun _ => ?_, fun _ => by simp [getRunOutput, hk]⟩
    · simp [getRunOutput, hk] at h
    · exact ⟨keyNotSetMsg, by simp [getRunOutput, hk], by decide⟩
  · have h1 := pollLoop_result_shape timeout oracle
    refine ⟨?_, ?_, fun h => absurd h hk⟩
    · simpa [getRunOutput, hk] using h1.1
    · simpa [getRunOutput, hk] using h1.2

/-- Witness for C10 at the unset event key with an empty oracle. -/
theorem polling_result_dict_shape_witness :
    ((getRunOutput "" 10 []).1.success = false ∧ ("" : String) = "") ∧
    (∃ e, (getRunOutput "" 10 []).1.error = some e ∧ 0 < e.length) ∧
    getRunOutput "" 10 [] = (⟨false, none, some keyNotSetMsg⟩, 0, []) :=
  ⟨⟨rfl, rfl⟩, (polling_result_dict_shape "" 10 []).2.1 rfl,
   (polling_result_dict_shape "" 10 []).2.2 rfl⟩
